import Mathlib

/-!
Shallow embedding of `src/algorithms/distributed_query/main.go`:
a fan-out retry-and-race query dispatcher (`DistributedQuery`).

The Go program is concurrent; we embed it as three layers.

* Go errors (`errors.New`, `fmt.Errorf` with wrapping, `errors.Is`) become
  the inductive `GoError` with the chain test `errorsIs`.
* The per-replica worker goroutine (the `for i := 0; i < maxAttempts` loop,
  main.go lines 55-86) becomes the pure function `replicaWorker`.  Its
  nondeterministic inputs are explicit: `beh` gives the result of
  `rep.DoQuery` on each attempt, and `cp` is the first scheduling point
  at which this worker observes the cancellation of the shared context
  (points are numbered `2*i` for the `ctx.Err()` poll at the head of
  attempt `i` and `2*i+1` for the `ctx.Done()` poll during the backoff
  after attempt `i`; context cancellation is monotone, so a single first
  point is a faithful model).  The function returns the worker's event
  trace and the single `Response` it sent on `resCh`, if any.
* The collector (the `for { select ... } }` loop, main.go lines 96-125)
  becomes `collectorLoop`, a pure function over the ordered list of events
  the collector observes: received responses, the channel-closed signal,
  or the firing of the 2-second deadline.  `sessionEvents` builds that
  list from the channel arrival schedule: `resCh` is buffered to
  `len(replicas)`, so all sends precede `close(resCh)` and are drained by
  the receiver before it sees `ok = false`; an arrival is delivered iff
  the collector dequeues it before the deadline fires.

`DistributedQuery` glues the layers: a `Sched` records the scheduling
choices the Go runtime makes (per-worker cancellation points, channel
dequeue order and times, the time the janitor goroutine closes the
channel), `validSched` states which schedules can actually occur (the
dequeued responses are exactly the workers' sends, sends precede the
close, and with zero workers `wg.Wait()` returns at once), and the result
is the collector's decision.
-/

/-- A Go error value: either a base error created by `errors.New` (the
`id` distinguishes distinct allocations with equal messages), or a
wrapping error as produced by `fmt.Errorf` with `%w`. -/
inductive GoError where
  | base (id : Nat) (msg : String)
  | wrapped (msg : String) (inner : GoError)
deriving DecidableEq, Repr

/-- `ErrNotFound` (main.go line 17): the sentinel meaning the data was not
found; terminal for a replica, never retried. -/
def ErrNotFound : GoError := GoError.base 0 "not found"

/-- The error returned on main.go line 103 when the channel closes with no
success: `errors.New("all replicas failed after multiple retries")`. -/
def allReplicasFailedErr : GoError :=
  GoError.base 1 "all replicas failed after multiple retries"

/-- The error returned on main.go line 123 when the deadline fires:
`fmt.Errorf("query timed out after %s", totalTimeout)`. -/
def timedOutErr : GoError := GoError.base 2 "query timed out after 2s"

/-- `errors.Is(e, t)`: walks the wrapping chain of `e` looking for the
exact value `t`. -/
def errorsIs : GoError → GoError → Bool
  | GoError.wrapped m inner, t =>
      (GoError.wrapped m inner == t) || errorsIs inner t
  | GoError.base i m, t => GoError.base i m == t

/-- `errors.Is` lifted to `Option GoError`, where `none` is Go's `nil`
error; `errors.Is(nil, t)` is false for a non-nil sentinel `t`. -/
def errorsIsOpt : Option GoError → GoError → Bool
  | none, _ => false
  | some e, t => errorsIs e t

/-- The `Response` struct (main.go lines 27-31).  Workers fill only
`Message` and `Err`, leaving `Host` at its zero value. -/
structure Response where
  Message : String
  Err : Option GoError
  Host : String
deriving DecidableEq, Repr

/-- `maxAttempts = 3` (main.go line 34). -/
def maxAttempts : Nat := 3

/-- `retryInterval = 500 * time.Millisecond` (main.go line 35), in
milliseconds. -/
def retryInterval : Nat := 500

/-- `totalTimeout = 2 * time.Second` (main.go line 36), in milliseconds. -/
def totalTimeout : Nat := 2000

/-- The condition on main.go line 69:
`err == nil || errors.Is(err, ErrNotFound)` — the attempt result is
terminal and the worker sends it and returns. -/
def isTerminalResult (err : Option GoError) : Bool :=
  err.isNone || errorsIsOpt err ErrNotFound

/-- One observable event of a worker goroutine:
`check b` is the `ctx.Err() != nil` poll at the loop head (main.go line
61), with `b` the observed cancellation; `call i resp err` is the
`rep.DoQuery` call of attempt `i` (line 66) and its result; `send` is the
`resCh <- Response{...}` (line 70); `wait d intr` is the
`select { case <-time.After(retryInterval) ... case <-ctx.Done() ... }`
backoff (lines 77-83), with `d` the timer duration and `intr` whether the
`ctx.Done()` arm fired; `exit` is the worker's return, at which the
deferred `wg.Done()` (line 57) runs. -/
inductive WEvent where
  | check (cancelled : Bool)
  | call (i : Nat) (resp : String) (err : Option GoError)
  | send (resp : String) (err : Option GoError)
  | wait (d : Nat) (interrupted : Bool)
  | exit
deriving DecidableEq, Repr

/-- Result of running one worker goroutine to completion: its event trace
and the single response it sent on `resCh`, if any. -/
structure WorkerRun where
  trace : List WEvent
  sent : Option Response
deriving DecidableEq, Repr

/-- Whether the shared context is observed as cancelled at scheduling
point `p` of this worker, given that `cp` is the first point at which
cancellation is visible to it (`none`: never). -/
def cancelledAt (cp : Option Nat) (p : Nat) : Bool :=
  match cp with
  | none => false
  | some c => decide (c ≤ p)

/-- The worker loop `for i := 0; i < maxAttempts; i++` (main.go lines
59-85), on attempt `i` with `fuel` iterations remaining.  Branches, in
source order: the `ctx.Err()` check returning silently (line 61-63); the
terminal send-and-return (lines 69-72); the backoff `select` with the
`ctx.Done()` arm returning silently (lines 77-83); otherwise continue to
the next attempt. -/
def workerAux (beh : Nat → String × Option GoError) (cp : Option Nat) :
    Nat → Nat → WorkerRun
  | _, 0 => ⟨[WEvent.exit], none⟩
  | i, fuel+1 =>
    if cancelledAt cp (2*i) then
      ⟨[WEvent.check true, WEvent.exit], none⟩
    else if isTerminalResult (beh i).2 then
      ⟨[WEvent.check false, WEvent.call i (beh i).1 (beh i).2,
        WEvent.send (beh i).1 (beh i).2, WEvent.exit],
       some ⟨(beh i).1, (beh i).2, ""⟩⟩
    else if cancelledAt cp (2*i+1) then
      ⟨[WEvent.check false, WEvent.call i (beh i).1 (beh i).2,
        WEvent.wait retryInterval true, WEvent.exit], none⟩
    else
      ⟨WEvent.check false :: WEvent.call i (beh i).1 (beh i).2 ::
        WEvent.wait retryInterval false :: (workerAux beh cp (i+1) fuel).trace,
       (workerAux beh cp (i+1) fuel).sent⟩

/-- One worker goroutine (main.go lines 56-86): run the attempt loop from
attempt 0 with `maxAttempts` iterations available. -/
def replicaWorker (beh : Nat → String × Option GoError) (cp : Option Nat) :
    WorkerRun :=
  workerAux beh cp 0 maxAttempts

/-- One event observed by the collector's `select` (main.go lines 97-124):
a response dequeued from `resCh`, the channel-closed signal (`ok` false),
or the firing of `ctx.Done()` at the global deadline. -/
inductive CollectorEvent where
  | recv (r : Response)
  | closed
  | ctxDone
deriving DecidableEq, Repr

/-- What `DistributedQuery` hands back to its caller, plus whether the
explicit `cancel()` on main.go line 110 ran before the return (the
deferred `cancel()` on line 45 additionally runs on every path, after
the return value is decided). -/
structure CollectorResult where
  payload : String
  err : Option GoError
  cancelBeforeReturn : Bool
deriving DecidableEq, Repr

/-- The collector loop (main.go lines 96-125) over the ordered events it
observes.  `closed` returns the all-failed error (line 103); `ctxDone`
returns the timed-out error (line 123); a response with nil error calls
`cancel()` and returns its message (lines 108-112); a response carrying
`ErrNotFound` is discarded and the loop continues (lines 115-119); a
response with any other error falls off the `select` case and the loop
likewise continues.  `none` means the event list was exhausted with the
collector still waiting. -/
def collectorLoop : List CollectorEvent → Option CollectorResult
  | [] => none
  | CollectorEvent.closed :: _ =>
      some ⟨"", some allReplicasFailedErr, false⟩
  | CollectorEvent.ctxDone :: _ => some ⟨"", some timedOutErr, false⟩
  | CollectorEvent.recv r :: rest =>
    if r.Err.isNone then some ⟨r.Message, none, true⟩
    else if errorsIsOpt r.Err ErrNotFound then collectorLoop rest
    else collectorLoop rest

/-- The event list the collector consumes, given the channel arrivals
(dequeue time in ms, response) in dequeue order and the time the janitor
closes `resCh`.  If the close happens before the deadline every arrival
is delivered and then the closed signal (the buffered channel is drained
before `ok` turns false); otherwise the arrivals dequeued before the
deadline are delivered and then `ctx.Done()` fires. -/
def sessionEvents (arrivals : List (Nat × Response)) (closeTime : Nat) :
    List CollectorEvent :=
  if closeTime < totalTimeout then
    arrivals.map (fun a => CollectorEvent.recv a.2) ++ [CollectorEvent.closed]
  else
    (arrivals.filter (fun a => decide (a.1 < totalTimeout))).map
      (fun a => CollectorEvent.recv a.2) ++ [CollectorEvent.ctxDone]

/-- The scheduling choices of one run: for each worker index, the first
point at which it observes cancellation; the channel dequeue schedule;
and the time the janitor goroutine (main.go lines 90-93) closes `resCh`. -/
structure Sched where
  cancelPoints : Nat → Option Nat
  arrivals : List (Nat × Response)
  closeTime : Nat

/-- The outcome each spawned worker sends on `resCh`, if any: one worker
per replica, in order (main.go lines 55-87). -/
def workerOutcomes (replicas : List (Nat → String × Option GoError))
    (cps : Nat → Option Nat) : List (Option Response) :=
  replicas.enum.map (fun p => (replicaWorker p.2 (cps p.1)).sent)

/-- Multiset equality of two response lists, by counting. -/
def sameMultiset (l₁ l₂ : List Response) : Bool :=
  l₁.length == l₂.length && l₁.all (fun r => l₁.count r == l₂.count r)

/-- Which schedules can actually occur: the dequeued responses are exactly
the responses the workers sent (in some order); every send is dequeued no
later than the close (`close(resCh)` runs only after `wg.Wait()`, hence
after every send); and with zero replicas `wg.Wait()` returns at once, so
the close happens at time 0, well before the 2-second deadline. -/
def validSched (replicas : List (Nat → String × Option GoError))
    (s : Sched) : Bool :=
  sameMultiset (s.arrivals.map (fun a => a.2))
      ((workerOutcomes replicas s.cancelPoints).reduceOption)
    && s.arrivals.all (fun a => decide (a.1 ≤ s.closeTime))
    && (!replicas.isEmpty || s.closeTime == 0)

/-- `DistributedQuery(query, replicas)` (main.go lines 42-126), run under
the scheduling choices `s`: the result the collector decides on the
session's event list.  The signature takes no timeout: the deadline is
the package constant `totalTimeout` (line 44).  `none` marks a schedule
that cannot occur. -/
def DistributedQuery (query : String)
    (replicas : List (Nat → String × Option GoError)) (s : Sched) :
    Option CollectorResult :=
  if validSched replicas s then
    some ((collectorLoop (sessionEvents s.arrivals s.closeTime)).getD
      ⟨"", none, false⟩)
  else none

/-- Follows the spec's words (sections 4.3 and 6), not the source: the
session event list if the deadline were a caller-supplied `timeout`
instead of the constant `totalTimeout`. -/
def sessionEventsSpec (timeout : Nat) (arrivals : List (Nat × Response))
    (closeTime : Nat) : List CollectorEvent :=
  if closeTime < timeout then
    arrivals.map (fun a => CollectorEvent.recv a.2) ++ [CollectorEvent.closed]
  else
    (arrivals.filter (fun a => decide (a.1 < timeout))).map
      (fun a => CollectorEvent.recv a.2) ++ [CollectorEvent.ctxDone]

/-- Follows the spec's words (sections 4.3 and 6), not the source: the
dispatcher as the spec describes it, with the timeout a caller-supplied
parameter bounding the whole call. -/
def dispatchSpec (query : String)
    (replicas : List (Nat → String × Option GoError)) (s : Sched)
    (timeout : Nat) : Option CollectorResult :=
  if validSched replicas s then
    some ((collectorLoop (sessionEventsSpec timeout s.arrivals s.closeTime)).getD
      ⟨"", none, false⟩)
  else none

/-! ### Structure lemmas about the worker trace -/

/-- Every run of the worker loop ends with a single `exit` event: the
worker returns on every path, and the deferred `wg.Done()` runs exactly
once. -/
lemma workerAux_exit_split (beh : Nat → String × Option GoError)
    (cp : Option Nat) :
    ∀ fuel i, ∃ pre, (workerAux beh cp i fuel).trace = pre ++ [WEvent.exit] ∧
      WEvent.exit ∉ pre := by
  intro fuel
  induction fuel with
  | zero => intro i; exact ⟨[], rfl, by simp⟩
  | succ n ih =>
    intro i
    simp only [workerAux]
    split
    · exact ⟨[WEvent.check true], rfl, by simp⟩
    · split
      · exact ⟨[WEvent.check false, WEvent.call i (beh i).1 (beh i).2,
          WEvent.send (beh i).1 (beh i).2], rfl, by simp⟩
      · split
        · exact ⟨[WEvent.check false, WEvent.call i (beh i).1 (beh i).2,
            WEvent.wait retryInterval true], rfl, by simp⟩
        · obtain ⟨pre, hpre, hmem⟩ := ih (i+1)
          refine ⟨WEvent.check false :: WEvent.call i (beh i).1 (beh i).2 ::
            WEvent.wait retryInterval false :: pre, ?_, ?_⟩
          · simp [hpre]
          · simp [hmem]

/-- Anatomy of each `call` event in a worker trace: the recorded result
really is what `rep.DoQuery` returned on that attempt, the attempt ran
only after a non-cancelled `ctx.Err()` check, and what follows is
determined by the result: a terminal result (nil error or one matching
`ErrNotFound`) is sent on `resCh` and the worker returns at once, while
a retryable error is followed by the backoff `select`, which either is
interrupted by cancellation (the worker returns silently) or completes
and the loop moves on to attempt `j+1`. -/
lemma workerAux_call_split (beh : Nat → String × Option GoError)
    (cp : Option Nat) :
    ∀ fuel i pre j r e post,
      (workerAux beh cp i fuel).trace = pre ++ WEvent.call j r e :: post →
      beh j = (r, e) ∧ cancelledAt cp (2*j) = false ∧
      (∃ pre₀, pre = pre₀ ++ [WEvent.check false]) ∧
      (isTerminalResult e = true →
        post = [WEvent.send r e, WEvent.exit] ∧
        (workerAux beh cp i fuel).sent = some ⟨r, e, ""⟩) ∧
      (isTerminalResult e = false →
        (cancelledAt cp (2*j+1) = true ∧
            post = [WEvent.wait retryInterval true, WEvent.exit]) ∨
        (cancelledAt cp (2*j+1) = false ∧ ∃ fuel₂,
            j + 1 + fuel₂ = i + fuel ∧
            post = WEvent.wait retryInterval false ::
              (workerAux beh cp (j+1) fuel₂).trace ∧
            (workerAux beh cp i fuel).sent =
              (workerAux beh cp (j+1) fuel₂).sent)) := by
  intro fuel
  induction fuel with
  | zero =>
    intro i pre j r e post h
    simp only [workerAux] at h
    have hmem : WEvent.call j r e ∈ ([WEvent.exit] : List WEvent) := by
      rw [h]; simp
    simp at hmem
  | succ n ih =>
    intro i pre j r e post h
    cases hc1 : cancelledAt cp (2*i) with
    | true =>
      simp only [workerAux, hc1, if_true] at h
      have hmem : WEvent.call j r e ∈
          ([WEvent.check true, WEvent.exit] : List WEvent) := by
        rw [h]; simp
      simp at hmem
    | false =>
      cases hc2 : isTerminalResult (beh i).2 with
      | true =>
        simp only [workerAux, hc1, hc2, Bool.false_eq_true, if_false,
          if_true] at h
        rcases pre with _ | ⟨a, _ | ⟨b, _ | ⟨c, _ | ⟨d, pre⟩⟩⟩⟩ <;>
          simp only [List.cons_append, List.nil_append,
            List.cons.injEq] at h
        · exact absurd h.1 (by simp)
        · obtain ⟨ha, hcall, hpost⟩ := h
          obtain ⟨hj, hr, he⟩ := WEvent.call.inj hcall
          subst hj; subst hpost
          refine ⟨by rw [← hr, ← he], hc1, ⟨[], by rw [← ha]; rfl⟩, ?_, ?_⟩
          · intro _
            refine ⟨by rw [hr, he], ?_⟩
            simp only [workerAux, hc1, hc2, Bool.false_eq_true, if_false,
              if_true]
            rw [hr, he]
          · intro hterm
            rw [← he] at hterm
            rw [hterm] at hc2
            exact absurd hc2 (by simp)
        · exact absurd h.2.2.1 (by simp)
        · exact absurd h.2.2.2.1 (by simp)
        · have := h.2.2.2.2
          have hmem : WEvent.call j r e ∈ ([] : List WEvent) := by
            have hx : ([] : List WEvent) = pre ++ WEvent.call j r e :: post :=
              this
            rw [hx]; simp
          simp at hmem
      | false =>
        cases hc3 : cancelledAt cp (2*i+1) with
        | true =>
          simp only [workerAux, hc1, hc2, hc3, Bool.false_eq_true, if_false,
            if_true] at h
          rcases pre with _ | ⟨a, _ | ⟨b, _ | ⟨c, _ | ⟨d, pre⟩⟩⟩⟩ <;>
            simp only [List.cons_append, List.nil_append,
              List.cons.injEq] at h
          · exact absurd h.1 (by simp)
          · obtain ⟨ha, hcall, hpost⟩ := h
            obtain ⟨hj, hr, he⟩ := WEvent.call.inj hcall
            subst hj; subst hpost
            refine ⟨by rw [← hr, ← he], hc1, ⟨[], by rw [← ha]; rfl⟩, ?_, ?_⟩
            · intro hterm
              rw [← he] at hterm
              rw [hterm] at hc2
              exact absurd hc2 (by simp)
            · intro _
              exact Or.inl ⟨hc3, rfl⟩
          · exact absurd h.2.2.1 (by simp)
          · exact absurd h.2.2.2.1 (by simp)
          · have := h.2.2.2.2
            have hmem : WEvent.call j r e ∈ ([] : List WEvent) := by
              have hx : ([] : List WEvent) =
                  pre ++ WEvent.call j r e :: post := this
              rw [hx]; simp
            simp at hmem
        | false =>
          simp only [workerAux, hc1, hc2, hc3, Bool.false_eq_true, if_false,
            if_true] at h
          rcases pre with _ | ⟨a, _ | ⟨b, _ | ⟨c, pre⟩⟩⟩ <;>
            simp only [List.cons_append, List.nil_append,
              List.cons.injEq] at h
          · exact absurd h.1 (by simp)
          · obtain ⟨ha, hcall, hpost⟩ := h
            obtain ⟨hj, hr, he⟩ := WEvent.call.inj hcall
            subst hj
            refine ⟨by rw [← hr, ← he], hc1, ⟨[], by rw [← ha]; rfl⟩, ?_, ?_⟩
            · intro hterm
              rw [← he] at hterm
              rw [hterm] at hc2
              exact absurd hc2 (by simp)
            · intro _
              refine Or.inr ⟨hc3, n, by omega, hpost.symm, ?_⟩
              simp only [workerAux, hc1, hc2, hc3, Bool.false_eq_true,
                if_false, if_true]
          · exact absurd h.2.2.1 (by simp)
          · obtain ⟨ha, hb, hw, hrest⟩ := h
            obtain ⟨hbeh, hcj, ⟨pre₀, hpre₀⟩, hterm, hretry⟩ :=
              ih (i+1) pre j r e post hrest
            refine ⟨hbeh, hcj, ⟨a :: b :: c :: pre₀, by simp [hpre₀]⟩, ?_, ?_⟩
            · intro ht
              obtain ⟨hpost, hsent⟩ := hterm ht
              refine ⟨hpost, ?_⟩
              simp only [workerAux, hc1, hc2, hc3, Bool.false_eq_true,
                if_false, if_true]
              exact hsent
            · intro ht
              rcases hretry ht with hl | ⟨hcf, fuel₂, hfe, hpost, hsent⟩
              · exact Or.inl hl
              · refine Or.inr ⟨hcf, fuel₂, by omega, hpost, ?_⟩
                simp only [workerAux, hc1, hc2, hc3, Bool.false_eq_true,
                  if_false, if_true]
                exact hsent

/-- Recognizer for `call` events. -/
def isCallEv : WEvent → Bool
  | WEvent.call _ _ _ => true
  | _ => false

/-- Recognizer for `send` events. -/
def isSendEv : WEvent → Bool
  | WEvent.send _ _ => true
  | _ => false

/-- Recognizer for `exit` events. -/
def isExitEv : WEvent → Bool
  | WEvent.exit => true
  | _ => false

/-- If the worker observes cancellation at the `ctx.Err()` poll at a loop
head, it returns at once: nothing follows the positive check but the
worker's return, and no response is ever sent. -/
lemma workerAux_check_true_split (beh : Nat → String × Option GoError)
    (cp : Option Nat) :
    ∀ fuel i pre post,
      (workerAux beh cp i fuel).trace = pre ++ WEvent.check true :: post →
      post = [WEvent.exit] ∧ (workerAux beh cp i fuel).sent = none := by
  intro fuel
  induction fuel with
  | zero =>
    intro i pre post h
    simp only [workerAux] at h
    have hmem : WEvent.check true ∈ ([WEvent.exit] : List WEvent) := by
      rw [h]; simp
    simp at hmem
  | succ n ih =>
    intro i pre post h
    cases hc1 : cancelledAt cp (2*i) with
    | true =>
      simp only [workerAux, hc1, if_true] at h ⊢
      refine ⟨?_, trivial⟩
      rcases pre with _ | ⟨a, _ | ⟨b, pre⟩⟩ <;>
        simp only [List.cons_append, List.nil_append, List.cons.injEq] at h
      · exact h.2.symm
      · exact absurd h.2.1 (by simp)
      · have hmem : WEvent.check true ∈ ([] : List WEvent) := by
          have hx : ([] : List WEvent) = pre ++ WEvent.check true :: post :=
            h.2.2
          rw [hx]; simp
        simp at hmem
    | false =>
      cases hc2 : isTerminalResult (beh i).2 with
      | true =>
        simp only [workerAux, hc1, hc2, Bool.false_eq_true, if_false,
          if_true] at h
        have hmem : WEvent.check true ∈
            ([WEvent.check false, WEvent.call i (beh i).1 (beh i).2,
              WEvent.send (beh i).1 (beh i).2, WEvent.exit] :
              List WEvent) := by
          rw [h]; simp
        simp at hmem
      | false =>
        cases hc3 : cancelledAt cp (2*i+1) with
        | true =>
          simp only [workerAux, hc1, hc2, hc3, Bool.false_eq_true, if_false,
            if_true] at h
          have hmem : WEvent.check true ∈
              ([WEvent.check false, WEvent.call i (beh i).1 (beh i).2,
                WEvent.wait retryInterval true, WEvent.exit] :
                List WEvent) := by
            rw [h]; simp
          simp at hmem
        | false =>
          simp only [workerAux, hc1, hc2, hc3, Bool.false_eq_true, if_false,
            if_true] at h ⊢
          rcases pre with _ | ⟨a, _ | ⟨b, _ | ⟨c, pre⟩⟩⟩ <;>
            simp only [List.cons_append, List.nil_append,
              List.cons.injEq] at h
          · exact absurd h.1 (by simp)
          · exact absurd h.2.1 (by simp)
          · exact absurd h.2.2.1 (by simp)
          · exact ih (i+1) pre post h.2.2.2

/-- Every backoff `select` in a worker trace uses the fixed
`retryInterval` timer, and if its `ctx.Done()` arm fired the worker
returned at once, sending nothing. -/
lemma workerAux_wait_split (beh : Nat → String × Option GoError)
    (cp : Option Nat) :
    ∀ fuel i pre d b post,
      (workerAux beh cp i fuel).trace = pre ++ WEvent.wait d b :: post →
      d = retryInterval ∧
      (b = true → post = [WEvent.exit] ∧
        (workerAux beh cp i fuel).sent = none) := by
  intro fuel
  induction fuel with
  | zero =>
    intro i pre d b post h
    simp only [workerAux] at h
    have hmem : WEvent.wait d b ∈ ([WEvent.exit] : List WEvent) := by
      rw [h]; simp
    simp at hmem
  | succ n ih =>
    intro i pre d b post h
    cases hc1 : cancelledAt cp (2*i) with
    | true =>
      simp only [workerAux, hc1, if_true] at h
      have hmem : WEvent.wait d b ∈
          ([WEvent.check true, WEvent.exit] : List WEvent) := by
        rw [h]; simp
      simp at hmem
    | false =>
      cases hc2 : isTerminalResult (beh i).2 with
      | true =>
        simp only [workerAux, hc1, hc2, Bool.false_eq_true, if_false,
          if_true] at h
        have hmem : WEvent.wait d b ∈
            ([WEvent.check false, WEvent.call i (beh i).1 (beh i).2,
              WEvent.send (beh i).1 (beh i).2, WEvent.exit] :
              List WEvent) := by
          rw [h]; simp
        simp at hmem
      | false =>
        cases hc3 : cancelledAt cp (2*i+1) with
        | true =>
          simp only [workerAux, hc1, hc2, hc3, Bool.false_eq_true, if_false,
            if_true] at h ⊢
          rcases pre with _ | ⟨a, _ | ⟨b', _ | ⟨c, pre⟩⟩⟩ <;>
            simp only [List.cons_append, List.nil_append,
              List.cons.injEq] at h
          · exact absurd h.1 (by simp)
          · exact absurd h.2.1 (by simp)
          · obtain ⟨hd, hb⟩ := WEvent.wait.inj h.2.2.1
            exact ⟨hd.symm, fun _ => ⟨h.2.2.2.symm, trivial⟩⟩
          · have hmem : WEvent.wait d b ∈ ([WEvent.exit] : List WEvent) := by
              rw [h.2.2.2]; simp
            simp at hmem
        | false =>
          simp only [workerAux, hc1, hc2, hc3, Bool.false_eq_true, if_false,
            if_true] at h ⊢
          rcases pre with _ | ⟨a, _ | ⟨b', _ | ⟨c, pre⟩⟩⟩ <;>
            simp only [List.cons_append, List.nil_append,
              List.cons.injEq] at h
          · exact absurd h.1 (by simp)
          · exact absurd h.2.1 (by simp)
          · obtain ⟨hd, hb⟩ := WEvent.wait.inj h.2.2.1
            refine ⟨hd.symm, fun hbt => ?_⟩
            rw [← hb] at hbt
            simp at hbt
          · exact ih (i+1) pre d b post h.2.2.2

/-- The worker performs at most `fuel` `DoQuery` calls in `fuel` loop
iterations. -/
lemma workerAux_calls_le (beh : Nat → String × Option GoError)
    (cp : Option Nat) :
    ∀ fuel i, ((workerAux beh cp i fuel).trace.countP isCallEv) ≤ fuel := by
  intro fuel
  induction fuel with
  | zero => intro i; simp [workerAux, isCallEv, List.countP_cons]
  | succ n ih =>
    intro i
    cases hc1 : cancelledAt cp (2*i) with
    | true => simp [workerAux, hc1, isCallEv, List.countP_cons]
    | false =>
      cases hc2 : isTerminalResult (beh i).2 with
      | true =>
        simp [workerAux, hc1, hc2, isCallEv, List.countP_cons]
      | false =>
        cases hc3 : cancelledAt cp (2*i+1) with
        | true =>
          simp [workerAux, hc1, hc2, hc3, isCallEv, List.countP_cons]
        | false =>
          simp only [workerAux, hc1, hc2, hc3, Bool.false_eq_true, if_false,
            if_true, List.countP_cons]
          have := ih (i+1)
          simp [isCallEv]
          omega

/-- A worker sends at most one response on `resCh` over its whole run. -/
lemma workerAux_sends_le (beh : Nat → String × Option GoError)
    (cp : Option Nat) :
    ∀ fuel i, ((workerAux beh cp i fuel).trace.countP isSendEv) ≤ 1 := by
  intro fuel
  induction fuel with
  | zero => intro i; simp [workerAux, isSendEv, List.countP_cons]
  | succ n ih =>
    intro i
    cases hc1 : cancelledAt cp (2*i) with
    | true => simp [workerAux, hc1, isSendEv, List.countP_cons]
    | false =>
      cases hc2 : isTerminalResult (beh i).2 with
      | true =>
        simp [workerAux, hc1, hc2, isSendEv, List.countP_cons]
      | false =>
        cases hc3 : cancelledAt cp (2*i+1) with
        | true =>
          simp [workerAux, hc1, hc2, hc3, isSendEv, List.countP_cons]
        | false =>
          simp only [workerAux, hc1, hc2, hc3, Bool.false_eq_true, if_false,
            if_true, List.countP_cons]
          have := ih (i+1)
          simp [isSendEv]
          omega

/-- Whether an event ends the collector loop: the closed signal, the
deadline, or a response with a nil error.  Responses carrying an error
(ErrNotFound or anything else) are discarded and the loop continues. -/
def decisiveEvent : CollectorEvent → Bool
  | CollectorEvent.recv r => r.Err.isNone
  | _ => true

/-- The decision each loop-ending event produces. -/
def eventOutcome : CollectorEvent → CollectorResult
  | CollectorEvent.recv r => ⟨r.Message, none, true⟩
  | CollectorEvent.closed => ⟨"", some allReplicasFailedErr, false⟩
  | CollectorEvent.ctxDone => ⟨"", some timedOutErr, false⟩

/-- The collector loop returns the outcome of the first loop-ending event
in its input, and keeps waiting if there is none. -/
lemma collectorLoop_eq_find (evs : List CollectorEvent) :
    collectorLoop evs = (evs.find? decisiveEvent).map eventOutcome := by
  induction evs with
  | nil => rfl
  | cons e rest ih =>
    cases e with
    | closed => simp [collectorLoop, decisiveEvent, eventOutcome]
    | ctxDone => simp [collectorLoop, decisiveEvent, eventOutcome]
    | recv r =>
      cases hr : r.Err.isNone with
      | true =>
        rw [List.find?_cons_of_pos _ (by simp [decisiveEvent, hr])]
        simp [collectorLoop, hr, eventOutcome]
      | false =>
        rw [List.find?_cons_of_neg _ (by simp [decisiveEvent, hr])]
        rw [← ih]
        simp only [collectorLoop, hr, Bool.false_eq_true, if_false]
        split <;> rfl

/-- A response carries a nil error. -/
def successArrival (a : Nat × Response) : Bool := a.2.Err.isNone

/-- Closed form of the collector's decision over a whole session: the
first error-free response delivered wins; otherwise the run ends in the
all-failed error if the channel closed before the deadline, and in the
timed-out error if the deadline fired first. -/
lemma collector_session_eq (arrivals : List (Nat × Response))
    (closeTime : Nat) :
    collectorLoop (sessionEvents arrivals closeTime) =
      if closeTime < totalTimeout then
        match arrivals.find? successArrival with
        | some a => some ⟨a.2.Message, none, true⟩
        | none => some ⟨"", some allReplicasFailedErr, false⟩
      else
        match (arrivals.filter (fun a => decide (a.1 < totalTimeout))).find?
            successArrival with
        | some a => some ⟨a.2.Message, none, true⟩
        | none => some ⟨"", some timedOutErr, false⟩ := by
  unfold sessionEvents
  by_cases hct : closeTime < totalTimeout
  · rw [if_pos hct, if_pos hct, collectorLoop_eq_find, List.find?_append,
      List.find?_map]
    have hcomp : (decisiveEvent ∘ fun a : Nat × Response =>
        CollectorEvent.recv a.2) = successArrival := by
      funext a; simp [decisiveEvent, successArrival]
    rw [hcomp]
    cases hf : arrivals.find? successArrival with
    | none => simp [decisiveEvent, eventOutcome]
    | some a => simp [eventOutcome]
  · rw [if_neg hct, if_neg hct, collectorLoop_eq_find, List.find?_append,
      List.find?_map]
    have hcomp : (decisiveEvent ∘ fun a : Nat × Response =>
        CollectorEvent.recv a.2) = successArrival := by
      funext a; simp [decisiveEvent, successArrival]
    rw [hcomp]
    cases hf : (arrivals.filter
        (fun a => decide (a.1 < totalTimeout))).find? successArrival with
    | none => simp [decisiveEvent, eventOutcome]
    | some a => simp [eventOutcome]

/-- Over a whole session the collector always reaches a decision: the
event list always ends in the closed signal or the deadline. -/
lemma collector_session_isSome (arrivals : List (Nat × Response))
    (closeTime : Nat) :
    (collectorLoop (sessionEvents arrivals closeTime)).isSome = true := by
  rw [collector_session_eq]
  split
  · split <;> simp
  · split <;> simp

/-- Under a realizable schedule, `DistributedQuery` returns exactly the
collector's decision on the session's events. -/
lemma DistributedQuery_eq_some (q : String)
    (replicas : List (Nat → String × Option GoError)) (s : Sched)
    (hv : validSched replicas s = true) :
    DistributedQuery q replicas s =
      collectorLoop (sessionEvents s.arrivals s.closeTime) := by
  unfold DistributedQuery
  rw [if_pos hv]
  have h := collector_session_isSome s.arrivals s.closeTime
  cases hx : collectorLoop (sessionEvents s.arrivals s.closeTime) with
  | none => rw [hx] at h; simp at h
  | some c => simp

/-! ### Concrete replica behaviours used to witness the theorems -/

/-- A replica that answers successfully at once on every attempt. -/
def behOk : Nat → String × Option GoError := fun _ => ("ok", none)

/-- A replica that fails with a retryable error on every attempt. -/
def behFlaky : Nat → String × Option GoError :=
  fun _ => ("", some (GoError.base 7 "temporary connection error"))

/-- A replica that answers `ErrNotFound` on every attempt. -/
def behMissing : Nat → String × Option GoError :=
  fun _ => ("", some ErrNotFound)

/-- The query string used in the concrete witnesses. -/
def demoQuery : String := "q"

/-- An empty payload string. -/
def emptyStr : String := ""

/-- A successful payload string. -/
def okStr : String := "ok"

/-- The message of a wrapping error used in the examples. -/
def wrapMsg : String := "query user 123"

/-- An error that wraps the not-found sentinel without being it, as
produced by wrapping `ErrNotFound` with additional context. -/
def wrapNF : GoError := GoError.wrapped wrapMsg ErrNotFound

/-! ### The claims -/

/-- C1: for every dispatch call in which some replica's attempt yields a
successful (error-free) outcome that reaches the collector first — before
the deadline and with only error-carrying outcomes ahead of it — the
dispatch returns that outcome's payload with a nil error, and the
explicit `cancel()` of the shared cancellation scope runs before the
return, telling the remaining workers to stop. -/
theorem C1_first_success_wins (q : String)
    (replicas : List (Nat → String × Option GoError)) (s : Sched)
    (pre rest : List (Nat × Response)) (t : Nat) (r : Response)
    (hv : validSched replicas s = true)
    (hsplit : s.arrivals = pre ++ (t, r) :: rest)
    (hr : r.Err = none)
    (hpre : ∀ a ∈ pre, a.2.Err ≠ none)
    (ht : t < totalTimeout) :
    DistributedQuery q replicas s = some ⟨r.Message, none, true⟩ := by
  rw [DistributedQuery_eq_some q replicas s hv, collector_session_eq, hsplit]
  have hpre' : ∀ a ∈ pre, successArrival a = false := by
    intro a ha
    cases hae : a.2.Err with
    | none => exact absurd hae (hpre a ha)
    | some e => simp [successArrival, hae]
  by_cases hct : s.closeTime < totalTimeout
  · rw [if_pos hct]
    have h1 : pre.find? successArrival = none := by
      rw [List.find?_eq_none]
      intro a ha
      simp [hpre' a ha]
    rw [List.find?_append, h1,
      List.find?_cons_of_pos _ (by simp [successArrival, hr])]
    simp
  · rw [if_neg hct, List.filter_append,
      List.filter_cons_of_pos (by simp [ht]), List.find?_append]
    have h1 : (pre.filter (fun a => decide (a.1 < totalTimeout))).find?
        successArrival = none := by
      rw [List.find?_eq_none]
      intro a ha
      have hm : a ∈ pre := (List.mem_filter.mp ha).1
      simp [hpre' a hm]
    rw [h1, List.find?_cons_of_pos _ (by simp [successArrival, hr])]
    simp

/-- Witness for C1 at a concrete input: one immediately-successful
replica whose response is dequeued at 10ms; the channel closes at 20ms. -/
theorem C1_first_success_wins_witness :
    DistributedQuery demoQuery [behOk]
      ⟨fun _ => none, [(10, ⟨"ok", none, ""⟩)], 20⟩ =
      some ⟨"ok", none, true⟩ :=
  C1_first_success_wins demoQuery [behOk]
    ⟨fun _ => none, [(10, ⟨"ok", none, ""⟩)], 20⟩
    [] [] 10 ⟨"ok", none, ""⟩ (by decide) rfl rfl (by simp) (by decide)

/-- C2: under every realizable schedule the dispatch returns exactly one
of the three results.  Its error is nil (Success), the all-failed error,
or the timed-out error and nothing else; the all-failed error is returned
exactly when the completion channel closed (all workers finished) before
the deadline with no successful outcome among the dequeued responses; the
timed-out error is returned exactly when the deadline fired first with no
successful outcome dequeued before it; and the two failure errors are
distinct values, so the caller can tell them apart. -/
theorem C2_result_trichotomy (q : String)
    (replicas : List (Nat → String × Option GoError)) (s : Sched)
    (hv : validSched replicas s = true) :
    ∃ c, DistributedQuery q replicas s = some c ∧
      (c.err = none ∨ c.err = some allReplicasFailedErr ∨
        c.err = some timedOutErr) ∧
      (c.err = some allReplicasFailedErr ↔
        s.closeTime < totalTimeout ∧ ∀ a ∈ s.arrivals, a.2.Err ≠ none) ∧
      (c.err = some timedOutErr ↔
        totalTimeout ≤ s.closeTime ∧
          ∀ a ∈ s.arrivals, a.1 < totalTimeout → a.2.Err ≠ none) ∧
      allReplicasFailedErr ≠ timedOutErr := by
  rw [DistributedQuery_eq_some q replicas s hv, collector_session_eq]
  by_cases hct : s.closeTime < totalTimeout
  · rw [if_pos hct]
    cases hf : s.arrivals.find? successArrival with
    | some a =>
      refine ⟨⟨a.2.Message, none, true⟩, rfl, Or.inl rfl, ?_, ?_, by decide⟩
      · constructor
        · intro hcontra; exact absurd hcontra (by simp)
        · rintro ⟨-, hall⟩
          have hmem := List.mem_of_find?_eq_some hf
          have hsucc := List.find?_some hf
          have hnone : a.2.Err = none := by
            simpa [successArrival] using hsucc
          exact absurd hnone (hall a hmem)
      · constructor
        · intro hcontra; exact absurd hcontra (by simp)
        · rintro ⟨hge, -⟩; omega
    | none =>
      refine ⟨⟨"", some allReplicasFailedErr, false⟩, rfl,
        Or.inr (Or.inl rfl), ?_, ?_, by decide⟩
      · constructor
        · intro _
          refine ⟨hct, ?_⟩
          intro a ha hnone
          have := List.find?_eq_none.mp hf a ha
          simp [successArrival, hnone] at this
        · intro _; rfl
      · constructor
        · intro hcontra
          exact absurd (Option.some.inj hcontra) (by decide)
        · rintro ⟨hge, -⟩; omega
  · rw [if_neg hct]
    cases hf : (s.arrivals.filter
        (fun a => decide (a.1 < totalTimeout))).find? successArrival with
    | some a =>
      refine ⟨⟨a.2.Message, none, true⟩, rfl, Or.inl rfl, ?_, ?_, by decide⟩
      · constructor
        · intro hcontra; exact absurd hcontra (by simp)
        · rintro ⟨hlt, -⟩; exact absurd hlt hct
      · constructor
        · intro hcontra; exact absurd hcontra (by simp)
        · rintro ⟨-, hall⟩
          have hmem := List.mem_of_find?_eq_some hf
          have hsucc := List.find?_some hf
          obtain ⟨hmem', hfl⟩ := List.mem_filter.mp hmem
          have hnone : a.2.Err = none := by
            simpa [successArrival] using hsucc
          exact absurd hnone (hall a hmem' (by simpa using hfl))
    | none =>
      refine ⟨⟨"", some timedOutErr, false⟩, rfl,
        Or.inr (Or.inr rfl), ?_, ?_, by decide⟩
      · constructor
        · intro hcontra
          exact absurd (Option.some.inj hcontra) (by decide)
        · rintro ⟨hlt, -⟩; exact absurd hlt hct
      · constructor
        · intro _
          refine ⟨by omega, ?_⟩
          intro a ha hlt hnone
          have := List.find?_eq_none.mp hf a
            (List.mem_filter.mpr ⟨ha, by simpa using hlt⟩)
          simp [successArrival, hnone] at this
        · intro _; rfl

/-- Witness for C2 at a concrete input: one always-failing replica, no
responses, channel closed at time 0. -/
theorem C2_result_trichotomy_witness :
    ∃ c, DistributedQuery demoQuery [behFlaky] ⟨fun _ => none, [], 0⟩ = some c ∧
      (c.err = none ∨ c.err = some allReplicasFailedErr ∨
        c.err = some timedOutErr) := by
  obtain ⟨c, hc, htri, -⟩ :=
    C2_result_trichotomy demoQuery [behFlaky] ⟨fun _ => none, [], 0⟩ (by decide)
  exact ⟨c, hc, htri⟩

/-- C3: every worker makes at most `maxAttempts = 3` `DoQuery` calls
against its replica; every backoff between attempts waits the fixed
`retryInterval = 500` milliseconds; and when all three attempts fail
with retryable (non-not-found) errors and no cancellation intervenes,
the worker terminates with all three attempts made and sends nothing on
the completion channel. -/
theorem C3_retry_bounds (beh : Nat → String × Option GoError)
    (cp : Option Nat) :
    ((replicaWorker beh cp).trace.countP isCallEv ≤ maxAttempts) ∧
    (∀ d b, WEvent.wait d b ∈ (replicaWorker beh cp).trace →
      d = retryInterval) ∧
    maxAttempts = 3 ∧ retryInterval = 500 ∧
    ((∀ i, i < maxAttempts → (beh i).2 ≠ none ∧
        errorsIsOpt (beh i).2 ErrNotFound = false) → cp = none →
      (replicaWorker beh cp).sent = none ∧
      (replicaWorker beh cp).trace.countP isCallEv = maxAttempts) := by
  refine ⟨workerAux_calls_le beh cp maxAttempts 0, ?_, rfl, rfl, ?_⟩
  · intro d b hmem
    obtain ⟨s, t, hst⟩ := List.append_of_mem hmem
    exact (workerAux_wait_split beh cp maxAttempts 0 s d b t hst).1
  · intro hall hcp
    subst hcp
    have ht : ∀ i, i < 3 → isTerminalResult (beh i).2 = false := by
      intro i hi
      obtain ⟨h1, h2⟩ := hall i hi
      cases hbe : (beh i).2 with
      | none => exact absurd hbe h1
      | some e =>
        rw [hbe] at h2
        have h2' : errorsIs e ErrNotFound = false := by
          simpa [errorsIsOpt] using h2
        simp [isTerminalResult, hbe, errorsIsOpt, h2']
    have hca : ∀ p, cancelledAt none p = false := fun p => rfl
    constructor
    · simp [replicaWorker, maxAttempts, workerAux, hca, ht 0 (by omega),
        ht 1 (by omega), ht 2 (by omega)]
    · simp [replicaWorker, maxAttempts, workerAux, hca, ht 0 (by omega),
        ht 1 (by omega), ht 2 (by omega), isCallEv, List.countP_cons]

/-- Witness for C3 at a concrete input: a replica failing with a
retryable error on all attempts makes exactly 3 calls and sends
nothing. -/
theorem C3_retry_bounds_witness :
    (replicaWorker behFlaky none).sent = none ∧
    (replicaWorker behFlaky none).trace.countP isCallEv = maxAttempts :=
  (C3_retry_bounds behFlaky none).2.2.2.2
    (fun i _ => ⟨by simp [behFlaky], rfl⟩) rfl

/-- A non-cancelled loop iteration with fuel remaining always opens with
the negative `ctx.Err()` check followed by the attempt's `DoQuery` call. -/
lemma workerAux_head (beh : Nat → String × Option GoError)
    (cp : Option Nat) (i f : Nat)
    (hc : cancelledAt cp (2*i) = false) :
    ∃ r₂ e₂ post₃, (workerAux beh cp i (f+1)).trace =
      WEvent.check false :: WEvent.call i r₂ e₂ :: post₃ := by
  cases ht : isTerminalResult (beh i).2 with
  | true =>
    exact ⟨(beh i).1, (beh i).2,
      [WEvent.send (beh i).1 (beh i).2, WEvent.exit],
      by simp [workerAux, hc, ht]⟩
  | false =>
    cases hc2 : cancelledAt cp (2*i+1) with
    | true =>
      exact ⟨(beh i).1, (beh i).2,
        [WEvent.wait retryInterval true, WEvent.exit],
        by simp [workerAux, hc, ht, hc2]⟩
    | false =>
      exact ⟨(beh i).1, (beh i).2,
        WEvent.wait retryInterval false :: (workerAux beh cp (i+1) f).trace,
        by simp [workerAux, hc, ht, hc2]⟩

/-- C4: on any attempt whose `DoQuery` result is a nil error or an error
matching the not-found sentinel, the worker sends exactly one outcome on
the completion channel and terminates immediately — the send and the
return are all that follow, so no further attempt is made against that
replica.  On any other error the attempt produces no send: the next
event is the backoff wait, and if the backoff completes uninterrupted,
another attempt remains, and cancellation has not been observed, the
next attempt's call follows. -/
theorem C4_terminal_send_once (beh : Nat → String × Option GoError)
    (cp : Option Nat) (pre post : List WEvent) (j : Nat) (r : String)
    (e : Option GoError)
    (h : (replicaWorker beh cp).trace = pre ++ WEvent.call j r e :: post) :
    ((e = none ∨ errorsIsOpt e ErrNotFound = true) →
      post = [WEvent.send r e, WEvent.exit] ∧
      (replicaWorker beh cp).sent = some ⟨r, e, ""⟩ ∧
      (replicaWorker beh cp).trace.countP isSendEv = 1) ∧
    ((e ≠ none ∧ errorsIsOpt e ErrNotFound = false) →
      ∃ intr post₂, post = WEvent.wait retryInterval intr :: post₂ ∧
        (intr = false → j + 1 < maxAttempts →
          cancelledAt cp (2*(j+1)) = false →
          ∃ r₂ e₂ post₃, post₂ =
            WEvent.check false :: WEvent.call (j+1) r₂ e₂ :: post₃)) := by
  obtain ⟨hbeh, hcj, hpre₀, hterm, hretry⟩ :=
    workerAux_call_split beh cp maxAttempts 0 pre j r e post h
  constructor
  · intro hcase
    have ht : isTerminalResult e = true := by
      rcases hcase with hnone | hnf
      · simp [isTerminalResult, hnone]
      · simp [isTerminalResult, hnf]
    obtain ⟨hpost, hsent⟩ := hterm ht
    refine ⟨hpost, hsent, ?_⟩
    have hle := workerAux_sends_le beh cp maxAttempts 0
    have hmem : WEvent.send r e ∈ (replicaWorker beh cp).trace := by
      rw [h, hpost]; simp
    have hpos : 0 < (replicaWorker beh cp).trace.countP isSendEv := by
      rw [List.countP_pos]
      exact ⟨WEvent.send r e, hmem, by simp [isSendEv]⟩
    have : (replicaWorker beh cp).trace.countP isSendEv ≤ 1 := hle
    omega
  · rintro ⟨hne, hnf⟩
    have ht : isTerminalResult e = false := by
      cases he : e with
      | none => exact absurd he hne
      | some e₀ =>
        rw [he] at hnf
        simp [isTerminalResult, errorsIsOpt]
        simpa [errorsIsOpt] using hnf
    rcases hretry ht with ⟨hcb, hpost⟩ | ⟨hcb, fuel₂, hfe, hpost, -⟩
    · exact ⟨true, [WEvent.exit], hpost, by simp⟩
    · refine ⟨false, (workerAux beh cp (j+1) fuel₂).trace, hpost, ?_⟩
      intro _ hlt hcanc
      have hf2 : ∃ f, fuel₂ = f + 1 := by
        refine ⟨fuel₂ - 1, ?_⟩
        simp [maxAttempts] at hlt hfe ⊢
        omega
      obtain ⟨f, hf⟩ := hf2
      rw [hf]
      exact workerAux_head beh cp (j+1) f hcanc

/-- Witness for C4 at a concrete input: a replica answering the not-found
sentinel sends exactly one outcome and stops. -/
theorem C4_terminal_send_once_witness :
    (replicaWorker behMissing none).sent =
      some ⟨"", some ErrNotFound, ""⟩ ∧
    (replicaWorker behMissing none).trace.countP isSendEv = 1 := by
  have h := (C4_terminal_send_once behMissing none [WEvent.check false]
    [WEvent.send emptyStr (some ErrNotFound), WEvent.exit] 0 emptyStr (some ErrNotFound)
    (by rfl)).1 (Or.inr (by rfl))
  exact ⟨h.2.1, h.2.2⟩

/-- C5: an outcome carrying a not-found error is discarded by the
collector, which simply keeps waiting — the loop's value is exactly its
value on the remaining events, so by itself a not-found outcome never
produces a dispatch failure; if the next outcome is a success from
another replica it is returned as the dispatch result; and the worker
whose attempt returned the not-found error never retries: its call is
followed only by the single send and the worker's return. -/
theorem C5_not_found_discarded (m h₀ : String) (e : GoError)
    (rest : List CollectorEvent)
    (hnf : errorsIs e ErrNotFound = true) :
    (collectorLoop (CollectorEvent.recv ⟨m, some e, h₀⟩ :: rest) =
      collectorLoop rest) ∧
    (∀ p h₂ rest₂, rest = CollectorEvent.recv ⟨p, none, h₂⟩ :: rest₂ →
      collectorLoop (CollectorEvent.recv ⟨m, some e, h₀⟩ :: rest) =
        some ⟨p, none, true⟩) ∧
    (∀ beh cp pre post j s₂,
      (replicaWorker beh cp).trace =
        pre ++ WEvent.call j s₂ (some e) :: post →
      post = [WEvent.send s₂ (some e), WEvent.exit]) := by
  have hdrop : collectorLoop (CollectorEvent.recv ⟨m, some e, h₀⟩ :: rest) =
      collectorLoop rest := by
    simp only [collectorLoop]
    rw [if_neg (by simp)]
    split <;> rfl
  refine ⟨hdrop, ?_, ?_⟩
  · intro p h₂ rest₂ hrest
    rw [hdrop, hrest]
    simp [collectorLoop]
  · intro beh cp pre post j s₂ h
    obtain ⟨-, -, -, hterm, -⟩ :=
      workerAux_call_split beh cp maxAttempts 0 pre j s₂ (some e) post h
    exact (hterm (by simp [isTerminalResult, errorsIsOpt, hnf])).1

/-- Witness for C5 at a concrete input: a not-found outcome followed by a
success from another replica yields that success. -/
theorem C5_not_found_discarded_witness :
    collectorLoop [CollectorEvent.recv ⟨"", some ErrNotFound, ""⟩,
      CollectorEvent.recv ⟨"ok", none, ""⟩] = some ⟨"ok", none, true⟩ :=
  (C5_not_found_discarded emptyStr emptyStr ErrNotFound
    [CollectorEvent.recv ⟨"ok", none, ""⟩] (by rfl)).2.1 okStr emptyStr [] rfl

/-- C6: with an empty replica collection no workers are spawned, the
janitor closes the channel immediately (time 0), and the collector's
very first and only event is the channel-closed signal — it never sees
the deadline — so the dispatch returns the all-failed error at once. -/
theorem C6_empty_replicas (q : String) (s : Sched)
    (hv : validSched [] s = true) :
    DistributedQuery q [] s =
      some ⟨"", some allReplicasFailedErr, false⟩ ∧
    sessionEvents s.arrivals s.closeTime = [CollectorEvent.closed] ∧
    workerOutcomes [] s.cancelPoints = [] := by
  have hv' := hv
  simp only [validSched, workerOutcomes, List.enum_nil, List.map_nil,
    List.reduceOption_nil, sameMultiset, Bool.and_eq_true, List.isEmpty_nil,
    Bool.not_true, Bool.false_or, beq_iff_eq] at hv'
  obtain ⟨⟨⟨hlen, -⟩, -⟩, hclose⟩ := hv'
  have harr : s.arrivals = [] := by
    have := List.map_eq_nil.mp (List.length_eq_zero.mp hlen)
    exact this
  have hevents : sessionEvents s.arrivals s.closeTime =
      [CollectorEvent.closed] := by
    rw [harr, hclose]
    simp [sessionEvents, totalTimeout]
  refine ⟨?_, hevents, rfl⟩
  rw [DistributedQuery_eq_some q [] s hv, hevents]
  rfl

/-- Witness for C6 at a concrete input. -/
theorem C6_empty_replicas_witness :
    DistributedQuery demoQuery [] ⟨fun _ => none, [], 0⟩ =
      some ⟨"", some allReplicasFailedErr, false⟩ :=
  (C6_empty_replicas demoQuery ⟨fun _ => none, [], 0⟩ (by decide)).1

/-- Counterexample to C7: the entry point accepts no caller-supplied
timeout.  A run whose success is dequeued at 1500ms is returned
successfully by the real dispatcher (bounded by the 2s constant), while
the spec's parameterized dispatcher, told a caller-supplied 100ms
timeout, would have timed out — the two disagree, so the real call is
not bounded by any caller-supplied duration. -/
theorem C7_counterexample :
    DistributedQuery demoQuery [behOk]
        ⟨fun _ => none, [(1500, ⟨"ok", none, ""⟩)], 1600⟩ =
      some ⟨"ok", none, true⟩ ∧
    dispatchSpec demoQuery [behOk]
        ⟨fun _ => none, [(1500, ⟨"ok", none, ""⟩)], 1600⟩ 100 =
      some ⟨"", some timedOutErr, false⟩ ∧
    DistributedQuery demoQuery [behOk]
        ⟨fun _ => none, [(1500, ⟨"ok", none, ""⟩)], 1600⟩ ≠
      dispatchSpec demoQuery [behOk]
        ⟨fun _ => none, [(1500, ⟨"ok", none, ""⟩)], 1600⟩ 100 := by
  refine ⟨by decide, by decide, by decide⟩

/-- C7 as amended: `DistributedQuery` takes only the query and the
replicas — there is no timeout parameter.  The timeout is the package
constant `totalTimeout = 2000` milliseconds, and that fixed duration
bounds the entire call: the dispatcher coincides with the spec's
parameterized dispatcher exactly at `totalTimeout`, and under any
realizable schedule every response the collector receives was dequeued
strictly before the 2-second deadline. -/
theorem C7_fixed_timeout_bound (q : String)
    (replicas : List (Nat → String × Option GoError)) (s : Sched) :
    DistributedQuery q replicas s = dispatchSpec q replicas s totalTimeout ∧
    totalTimeout = 2000 ∧
    (validSched replicas s = true →
      ∀ r, CollectorEvent.recv r ∈ sessionEvents s.arrivals s.closeTime →
        ∃ t, t < totalTimeout ∧ (t, r) ∈ s.arrivals) := by
  refine ⟨rfl, rfl, ?_⟩
  intro hv r hmem
  have hall : ∀ a ∈ s.arrivals, a.1 ≤ s.closeTime := by
    simp only [validSched, Bool.and_eq_true, List.all_eq_true,
      decide_eq_true_eq] at hv
    exact hv.1.2
  unfold sessionEvents at hmem
  by_cases hct : s.closeTime < totalTimeout
  · rw [if_pos hct] at hmem
    simp only [List.mem_append, List.mem_map, List.mem_singleton] at hmem
    rcases hmem with ⟨a, ha, heq⟩ | habs
    · have hr : a.2 = r := CollectorEvent.recv.inj heq
      refine ⟨a.1, by have := hall a ha; omega, ?_⟩
      rw [← hr]
      exact ha
    · exact absurd habs (by simp)
  · rw [if_neg hct] at hmem
    simp only [List.mem_append, List.mem_map, List.mem_singleton] at hmem
    rcases hmem with ⟨a, ha, heq⟩ | habs
    · obtain ⟨ha', hlt⟩ := List.mem_filter.mp ha
      have hr : a.2 = r := CollectorEvent.recv.inj heq
      refine ⟨a.1, by simpa using hlt, ?_⟩
      rw [← hr]
      exact ha'
    · exact absurd habs (by simp)

/-- Witness for the amended C7 at a concrete input: a run whose channel
closes after the deadline still delivers only the response dequeued
before the deadline. -/
theorem C7_fixed_timeout_bound_witness :
    (DistributedQuery demoQuery [behOk]
        ⟨fun _ => none, [(10, ⟨"ok", none, ""⟩)], 2500⟩ =
      dispatchSpec demoQuery [behOk]
        ⟨fun _ => none, [(10, ⟨"ok", none, ""⟩)], 2500⟩ totalTimeout) ∧
    (∃ t, t < totalTimeout ∧
      (t, (⟨"ok", none, ""⟩ : Response)) ∈
        [(10, (⟨"ok", none, ""⟩ : Response))]) := by
  have h := C7_fixed_timeout_bound demoQuery [behOk]
    ⟨fun _ => none, [(10, ⟨"ok", none, ""⟩)], 2500⟩
  exact ⟨h.1, h.2.2 (by decide) ⟨"ok", none, ""⟩ (by decide)⟩

/-- C8: every attempt's `DoQuery` call is immediately preceded by a
cancellation check that came back negative (the worker checks before
starting each attempt), and whenever the worker observes cancellation —
a positive check at a loop head, or the `ctx.Done()` arm firing during
a backoff wait — the observation is followed only by the worker's
return: it terminates silently, never emitting an outcome and never
starting another attempt. -/
theorem C8_cancellation_checks (beh : Nat → String × Option GoError)
    (cp : Option Nat) :
    (∀ pre j r e post,
      (replicaWorker beh cp).trace = pre ++ WEvent.call j r e :: post →
      ∃ pre₀, pre = pre₀ ++ [WEvent.check false]) ∧
    (∀ pre post,
      (replicaWorker beh cp).trace = pre ++ WEvent.check true :: post →
      post = [WEvent.exit] ∧ (replicaWorker beh cp).sent = none) ∧
    (∀ pre d post,
      (replicaWorker beh cp).trace = pre ++ WEvent.wait d true :: post →
      post = [WEvent.exit] ∧ (replicaWorker beh cp).sent = none) := by
  refine ⟨?_, ?_, ?_⟩
  · intro pre j r e post h
    exact (workerAux_call_split beh cp maxAttempts 0 pre j r e post h).2.2.1
  · intro pre post h
    exact workerAux_check_true_split beh cp maxAttempts 0 pre post h
  · intro pre d post h
    exact (workerAux_wait_split beh cp maxAttempts 0 pre d true post h).2 rfl

/-- Witness for C8 at a concrete input: a worker that observes
cancellation at its very first check terminates silently. -/
theorem C8_cancellation_checks_witness :
    (replicaWorker behFlaky (some 0)).sent = none :=
  ((C8_cancellation_checks behFlaky (some 0)).2.1 [] [WEvent.exit] rfl).2

/-- A replica whose error wraps the not-found sentinel without being it. -/
def behWrapped : Nat → String × Option GoError :=
  fun _ => ("", some (wrapNF))

/-- C9: not-found detection is by error-chain matching, not identity.
Any error `e` with `errors.Is(e, ErrNotFound)` is treated as terminal
not-found by the worker — the attempt's call is followed by the single
send and the return, exactly the treatment of the sentinel itself — and
is discarded by the collector exactly as the sentinel is; and a wrapped
error matches the chain test while being a different value from the
sentinel, so value identity is not required. -/
theorem C9_error_chain_matching (e : GoError)
    (hnf : errorsIs e ErrNotFound = true) :
    (∀ beh cp pre post j s₂,
      (replicaWorker beh cp).trace =
        pre ++ WEvent.call j s₂ (some e) :: post →
      post = [WEvent.send s₂ (some e), WEvent.exit] ∧
      (replicaWorker beh cp).sent = some ⟨s₂, some e, ""⟩) ∧
    (∀ m h₀ rest,
      collectorLoop (CollectorEvent.recv ⟨m, some e, h₀⟩ :: rest) =
        collectorLoop
          (CollectorEvent.recv ⟨m, some ErrNotFound, h₀⟩ :: rest)) ∧
    (errorsIs (wrapNF) ErrNotFound =
      true ∧
     wrapNF ≠ ErrNotFound) := by
  refine ⟨?_, ?_, by decide, by decide⟩
  · intro beh cp pre post j s₂ h
    obtain ⟨-, -, -, hterm, -⟩ :=
      workerAux_call_split beh cp maxAttempts 0 pre j s₂ (some e) post h
    exact hterm (by simp [isTerminalResult, errorsIsOpt, hnf])
  · intro m h₀ rest
    have h1 : collectorLoop (CollectorEvent.recv ⟨m, some e, h₀⟩ :: rest) =
        collectorLoop rest := by
      simp only [collectorLoop]
      rw [if_neg (by simp)]
      split <;> rfl
    have h2 : collectorLoop
        (CollectorEvent.recv ⟨m, some ErrNotFound, h₀⟩ :: rest) =
        collectorLoop rest := by
      simp only [collectorLoop]
      rw [if_neg (by simp)]
      split <;> rfl
    rw [h1, h2]

/-- Witness for C9 at a concrete input: a wrapped not-found error makes
the worker send once and stop, just like the sentinel. -/
theorem C9_error_chain_matching_witness :
    (replicaWorker behWrapped none).sent =
      some ⟨"", some (wrapNF), ""⟩ :=
  ((C9_error_chain_matching
      (wrapNF) (by decide)).1
    behWrapped none [WEvent.check false]
    [WEvent.send emptyStr (some (wrapNF)),
     WEvent.exit] 0 "" (by rfl)).2

/-- C10: every worker run ends with exactly one `exit` — each exit path
returns, and the return fires the deferred `wg.Done()` exactly once — so
the janitor's `wg.Wait()` terminates and the session's event list always
ends in the channel-closed signal (or the deadline, whichever comes
first).  Consequently the collector always reaches a decision: the
dispatch call cannot wait on the channel forever. -/
theorem C10_completion_signal (beh : Nat → String × Option GoError)
    (cp : Option Nat) (q : String)
    (replicas : List (Nat → String × Option GoError)) (s : Sched)
    (hv : validSched replicas s = true) :
    (∃ pre, (replicaWorker beh cp).trace = pre ++ [WEvent.exit] ∧
      WEvent.exit ∉ pre) ∧
    ((replicaWorker beh cp).trace.countP isExitEv = 1) ∧
    ((sessionEvents s.arrivals s.closeTime).getLast? =
        some CollectorEvent.closed ∨
      (sessionEvents s.arrivals s.closeTime).getLast? =
        some CollectorEvent.ctxDone) ∧
    (collectorLoop (sessionEvents s.arrivals s.closeTime)).isSome = true ∧
    (DistributedQuery q replicas s).isSome = true := by
  obtain ⟨pre, hpre, hmem⟩ := workerAux_exit_split beh cp maxAttempts 0
  refine ⟨⟨pre, hpre, hmem⟩, ?_, ?_, collector_session_isSome _ _, ?_⟩
  · rw [replicaWorker, hpre, List.countP_append]
    have hzero : pre.countP isExitEv = 0 := by
      rw [List.countP_eq_zero]
      intro a ha
      cases a with
      | exit => exact absurd ha hmem
      | check b => simp [isExitEv]
      | call i r e => simp [isExitEv]
      | send r e => simp [isExitEv]
      | wait d b => simp [isExitEv]
    rw [hzero]
    simp [isExitEv]
  · unfold sessionEvents
    split
    · exact Or.inl (List.getLast?_concat _)
    · exact Or.inr (List.getLast?_concat _)
  · rw [DistributedQuery_eq_some q replicas s hv]
    exact collector_session_isSome _ _

/-- Witness for C10 at a concrete input. -/
theorem C10_completion_signal_witness :
    (replicaWorker behFlaky none).trace.countP isExitEv = 1 ∧
    (DistributedQuery demoQuery [behFlaky] ⟨fun _ => none, [], 0⟩).isSome =
      true := by
  have h := C10_completion_signal behFlaky none demoQuery [behFlaky]
    ⟨fun _ => none, [], 0⟩ (by decide)
  exact ⟨h.2.1, h.2.2.2.2⟩
